import Mathlib

/-!
Verification development for the AntiDetectedMobileBrowser repository.

The Python sources (`main.py`, `browser.py`, `manager.py`, `models.py`) are
shallowly embedded below: pure string algorithms become Lean functions on
`List Char`, the scheduler (`WebsiteProcessor.process_all` with its helper
methods) becomes an explicit state-transition system driven by an
environment oracle that decides the outcome of each browser interaction,
and filesystem-effecting routines (`make_archive`,
`move_to_numbered_dir`) are embedded over an explicit world record that
carries exactly the filesystem facts the routine consults.

Strings are modelled as `List Char` (`Str`) so that all definitions are
executable and all concrete facts are decidable.
-/

/-- Strings modelled as lists of characters. -/
abbrev Str := List Char

namespace PyStr

/-- The two quote characters of the regex character class `["']` in
`UndetectBrowser.replace_urls_in_html` (browser.py:556). -/
def isQuote (c : Char) : Bool := c = '"' || c = '\''

/-- Python `needle in hay` (substring containment). -/
def hasSub (needle : Str) : Str → Bool
  | [] => needle.isPrefixOf []
  | c :: rest => needle.isPrefixOf (c :: rest) || hasSub needle rest

/-- Lower-case every character (models `re.IGNORECASE` matching). -/
def lower (s : Str) : Str := s.map Char.toLower

/-- Split a string at its LAST occurrence of `sep`, returning
`(before, after)`; `none` when `sep` does not occur.  Models Python
`s.rsplit(sep, 1)` for a single-character separator. -/
def rsplitLast (sep : Char) (s : Str) : Option (Str × Str) :=
  match s.reverse.span (fun c => !(c = sep)) with
  | (_, []) => none
  | (afterRev, _ :: beforeRev) => some (beforeRev.reverse, afterRev.reverse)

/-- Everything after the last `/`; models Python `s.split("/")[-1]`. -/
def afterLastSlash (s : Str) : Str :=
  (s.reverse.takeWhile (fun c => !(c = '/'))).reverse

/-- `os.path.basename` as used on the local download paths
(browser.py:564): the component after the last path separator; the code
runs against Windows-style chromedriver paths, so both `/` and `\` are
separators (ntpath semantics). -/
def os_path_basename (s : Str) : Str :=
  (s.reverse.takeWhile (fun c => !(c = '/' || c = '\\'))).reverse

/-- Workhorse for `replaceAll`: `skip` counts characters still to be
dropped because they belong to an occurrence already replaced. -/
def replaceAllGo (old new : Str) : Nat → Str → Str
  | _, [] => []
  | Nat.succ k, _ :: rest => replaceAllGo old new k rest
  | 0, c :: rest =>
    if old ≠ [] ∧ old.isPrefixOf (c :: rest) then
      new ++ replaceAllGo old new (old.length - 1) rest
    else
      c :: replaceAllGo old new 0 rest

/-- Python `str.replace(old, new)` for nonempty `old`: replace all
non-overlapping occurrences, scanning left to right.  (Both call sites
below pass a nonempty `old`; for `old = []` this function leaves the
string unchanged, a case Python treats differently but which never
arises.) -/
def replaceAll (old new s : Str) : Str := replaceAllGo old new 0 s

end PyStr

namespace Rewrite

open PyStr

/-!
Embedding of `UndetectBrowser.replace_urls_in_html` (browser.py:548-566).

For each `(target_value, local_path)` of the mapping the Python code
computes `filename = target_value.split("?")[0].split("/")[-1].rsplit('.',1)[0]`
(called the *stem* below), skips the entry when the stem is empty, and
runs `re.findall` with pattern

    (["'])([^"']*?stem[^"']*?\.[a-zA-Z0-9]+)\1      (IGNORECASE)

over the current HTML.  It then takes only `matches[0][1:]` -- i.e. the
content group of the FIRST match -- and `str.replace`s every occurrence
of that content with `os.path.basename(local_path)`.

A regex match at an opening quote `q` extends over the run of non-quote
characters that follows and succeeds exactly when the next quote
character equals `q` and the enclosed content (a) ends in `.` followed by
a nonempty alphanumeric run and (b) contains the stem (case-insensitive)
somewhere before that final dot; on failure the scan resumes one
character further.  `findFirstMatch` below implements exactly that.
-/

/-- The stem computed at browser.py:550:
`((target_value.split("?"))[0].split("/")[-1]).rsplit('.', 1)[0]`. -/
def stemOf (target_value : Str) : Str :=
  let noQuery := target_value.takeWhile (fun c => !(c = '?'))
  let base := afterLastSlash noQuery
  match rsplitLast '.' base with
  | some (pre, _) => pre
  | none => base

/-- Whether the content of a quoted run matches the regex body
`[^"']*?stem[^"']*?\.[a-zA-Z0-9]+` followed by the closing quote:
the content must end with a dot plus a nonempty alphanumeric extension,
and contain the stem (case-insensitively) within the part before that
final dot. -/
def contentMatches (stem content : Str) : Bool :=
  match rsplitLast '.' content with
  | none => false
  | some (pre, ext) =>
    !(ext = []) && ext.all Char.isAlphanum && hasSub (lower stem) (lower pre)

/-- The content group of the first regex match in `s`
(the `matches[0][1]` the code actually uses), scanning left to right. -/
def findFirstMatch (stem : Str) : Str → Option Str
  | [] => none
  | c :: rest =>
    if isQuote c then
      match rest.span (fun x => !(isQuote x)) with
      | (content, closing :: _) =>
        if closing = c && contentMatches stem content then some content
        else findFirstMatch stem rest
      | (_, []) => findFirstMatch stem rest
    else findFirstMatch stem rest

/-- `UndetectBrowser.replace_urls_in_html` (browser.py:548-566): fold the
per-entry first-match replacement over the mapping in insertion order. -/
def replace_urls_in_html (html_content : Str) (url_mapping : List (Str × Str)) : Str :=
  url_mapping.foldl
    (fun html entry =>
      let stem := stemOf entry.1
      if stem = [] then html
      else
        match findFirstMatch stem html with
        | none => html
        | some content => replaceAll content (os_path_basename entry.2) html)
    html_content

/-- `true` when the string contains neither `"` nor `'`. -/
def noQuotes (s : Str) : Bool := s.all (fun c => !(isQuote c))

end Rewrite

namespace Filename

open PyStr

/-!
Embedding of `UndetectBrowser._generate_filename` (browser.py:485-514).
The MD5 digest (`hashlib.md5(url.encode()).hexdigest()`) is kept abstract
as an explicit function argument `md5hex`; the claims quantify over it.
-/

/-- Split at the first occurrence of the substring `sep`, returning the
parts before and after it, or `none` if `sep` does not occur. -/
def splitFirstSub (sep : Str) : Str → Option (Str × Str)
  | [] => if sep = [] then some ([], []) else none
  | c :: rest =>
    if sep ≠ [] ∧ sep.isPrefixOf (c :: rest) then
      some ([], rest.drop (sep.length - 1))
    else
      match splitFirstSub sep rest with
      | some (a, b) => some (c :: a, b)
      | none => none

/-- `urllib.parse.urlparse(url).path` for the URL shapes the program
feeds it: for a URL with a `://` scheme separator the path starts at the
first `/` after the authority; otherwise the whole string is the path;
query (`?`) and fragment (`#`) parts are excluded. -/
def urlparse_path (url : Str) : Str :=
  match splitFirstSub "://".data url with
  | some (_, rest) =>
    ((rest.dropWhile (fun c => !(c = '/'))).takeWhile
      (fun c => !(c = '?' || c = '#')))
  | none => url.takeWhile (fun c => !(c = '?' || c = '#'))

/-- Python `str.strip()` (ASCII whitespace on both ends). -/
def strip (s : Str) : Str :=
  ((s.dropWhile Char.isWhitespace).reverse.dropWhile Char.isWhitespace).reverse

/-- The content-type → extension table of browser.py:499-509
(note: `image/jpeg` maps to `.jpeg` there). -/
def extensions : List (Str × Str) :=
  [ ("text/javascript".data, ".js".data)
  , ("text/css".data, ".css".data)
  , ("image/png".data, ".png".data)
  , ("image/jpeg".data, ".jpeg".data)
  , ("image/webp".data, ".webp".data)
  , ("font/woff2".data, ".woff2".data)
  , ("application/json".data, ".json".data)
  , ("text/html".data, ".html".data)
  , ("application/xml".data, ".xml".data) ]

/-- `content_type.split(';')[0].strip()` (browser.py:498). -/
def normalizeContentType (ct : Str) : Str :=
  strip (ct.takeWhile (fun c => !(c = ';')))

/-- The pre-extension filename of browser.py:492-494:
`os.path.basename(parsed.path.lstrip('/')) or md5(url)`. -/
def rawFilename (md5hex : Str → Str) (url : Str) : Str :=
  let path := (urlparse_path url).dropWhile (fun c => c = '/')
  let base := os_path_basename path
  if base = [] then md5hex url else base

/-- `UndetectBrowser._generate_filename` (browser.py:485-514). -/
def generate_filename (md5hex : Str → Str) (url : Str)
    (content_type : Option Str) : Str :=
  let filename := rawFilename md5hex url
  match content_type with
  | none => filename
  | some ct0 =>
    match extensions.lookup (normalizeContentType ct0) with
    | none => filename
    | some ext =>
      if ext.isSuffixOf filename then filename else filename ++ ext

end Filename

namespace Numbering

/-!
Embedding of the numbered-directory allocation shared by
`DirManager.move_to_numbered_dir` (manager.py:22-56) and
`UndetectBrowser.move_temp_to_numbered_folder` (browser.py:694-739).
A directory listing is modelled as a list of `(name, isDir)` entries.
-/

/-- Python `str.isdigit` restricted to ASCII as produced by directory
names: nonempty and all decimal digits. -/
def isDigits (s : Str) : Bool := !(s = []) && s.all Char.isDigit

/-- `int(name)` for an all-digit name. -/
def natOfDigits (s : Str) : Nat :=
  s.foldl (fun acc c => acc * 10 + (c.toNat - '0'.toNat)) 0

/-- The existing numbered folders: `int(f.name) for f in target.iterdir()
if f.is_dir() and f.name.isdigit()` (manager.py:41-44, browser.py:718-721). -/
def existingFolders (entries : List (Str × Bool)) : List Nat :=
  (entries.filter (fun e => e.2 && isDigits e.1)).map (fun e => natOfDigits e.1)

/-- `max(existing_folders) + 1 if existing_folders else 1`
(manager.py:47, browser.py:724). -/
def nextFolderNumber (entries : List (Str × Bool)) : Nat :=
  match existingFolders entries with
  | [] => 1
  | ns => ns.foldl Nat.max 0 + 1

/-- The name of the subdirectory `DirManager.move_to_numbered_dir`
allocates inside `target_dir` (manager.py:47-48). -/
def move_to_numbered_dir (entries : List (Str × Bool)) : Str :=
  (Nat.toDigits 10 (nextFolderNumber entries))

/-- The name of the folder `UndetectBrowser.move_temp_to_numbered_folder`
returns: `"0"` without allocating when the temp directory is empty
(browser.py:713-715), otherwise the freshly allocated number
(browser.py:724-725). -/
def move_temp_to_numbered_folder (tempEmpty : Bool)
    (entries : List (Str × Bool)) : Str :=
  if tempEmpty then "0".data
  else Nat.toDigits 10 (nextFolderNumber entries)

end Numbering

namespace Archive

/-!
Embedding of `UndetectBrowser.make_archive` (browser.py:615-665) over an
explicit world of filesystem facts.  Exceptions are modelled by
`Except Str`; the embedding additionally reports whether
`shutil.rmtree` on the source folder was ever invoked.
-/

/-- The filesystem facts `make_archive` consults. -/
structure World where
  folderExists : Bool      -- `folder_path.exists()`
  folderIsDir : Bool       -- `folder_path.is_dir()`
  zipSucceeds : Bool       -- `shutil.make_archive` returns without raising
  zipResultExists : Bool   -- `Path(archive_full_path).exists()`
  rmtreeSucceeds : Bool    -- `shutil.rmtree(folder_path)` does not raise
deriving DecidableEq

/-- A Python call result: normal return value or raised exception. -/
inductive PyResult where
  | ok (value : Str)
  | error (msg : Str)
deriving DecidableEq

/-- `true` exactly on the `error` constructor. -/
def PyResult.isError : PyResult → Bool
  | .ok _ => false
  | .error _ => true

/-- Outcome of a `make_archive` call: the returned archive path or the
raised error, together with whether removal of the source folder was
attempted. -/
structure Outcome where
  result : PyResult
  removalAttempted : Bool
deriving DecidableEq

/-- `UndetectBrowser.make_archive` (browser.py:615-665).  Every raise
inside the `try` block is re-raised as `RuntimeError` by the final
handler (browser.py:663-665); `archivePath` stands for the
`archive_full_path` string `shutil.make_archive` returns. -/
def make_archive (w : World) (archivePath : Str) (remove_source : Bool) : Outcome :=
  if !w.folderExists then
    ⟨.error "Failed to create archive: source folder not found".data, false⟩
  else if !w.folderIsDir then
    ⟨.error "Failed to create archive: source is not a directory".data, false⟩
  else if !w.zipSucceeds then
    ⟨.error "Failed to create archive: make_archive raised".data, false⟩
  else if !w.zipResultExists then
    ⟨.error "Failed to create archive: archive creation failed".data, false⟩
  else if remove_source then
    if w.rmtreeSucceeds then ⟨.ok archivePath, true⟩
    else ⟨.error "Failed to create archive: failed to remove source folder".data, true⟩
  else ⟨.ok archivePath, false⟩

end Archive

namespace Models

/-!
Embedding of `models.py`.  `ProxyManager` (models.py:43-54) declares
`count`, `regions` and `proxies` as CLASS attributes; `add_proxy` mutates
`self.proxies` / `self.regions` in place (hitting the class-level
objects, since instances never acquire their own) while
`self.count += 1` rebinds `count` as an instance attribute.  The
embedding models one class plus two instances A and B with Python's
attribute lookup (instance attribute if present, else class attribute).
-/

/-- `models.ProxyUnit` (floats carried as integers; no arithmetic is
ever performed on them). -/
structure ProxyUnit where
  host : Str
  port : Int
  username : Str
  password : Str
  timezone : Str
  locale : Str
  longitude : Int
  lantitude : Int
  zipcode : Str
deriving DecidableEq, Repr

/-- The attribute state of the `ProxyManager` class and of two
independently constructed instances A and B.  A fresh instance owns no
attributes, so reads fall through to the class. -/
structure TwoManagers where
  classCount : Int
  classRegions : List Str
  classProxies : List (Str × ProxyUnit)
  ownCountA : Option Int
  ownCountB : Option Int
deriving DecidableEq

/-- The state right after `ProxyManager()` has been evaluated twice:
class attributes as written in models.py:44-46, no instance attributes. -/
def freshTwo : TwoManagers :=
  ⟨0, [], [], none, none⟩

/-- `a.add_proxy(country_name, value)` on instance A (models.py:48-51):
`self.proxies[k] = v` and `self.regions.append(k)` mutate the
class-level containers; `self.count += 1` reads through the attribute
chain and writes an instance attribute on A. -/
def add_proxyA (st : TwoManagers) (country_name : Str) (value : ProxyUnit) :
    TwoManagers :=
  { st with
    classProxies := st.classProxies ++ [(country_name, value)]
    classRegions := st.classRegions ++ [country_name]
    ownCountA := some ((st.ownCountA.getD st.classCount) + 1) }

/-- `b.count` read through instance B. -/
def countB (st : TwoManagers) : Int := st.ownCountB.getD st.classCount

/-- `b.regions` read through instance B (never an instance attribute). -/
def regionsB (st : TwoManagers) : List Str := st.classRegions

/-- `b.proxies` read through instance B (never an instance attribute). -/
def proxiesB (st : TwoManagers) : List (Str × ProxyUnit) := st.classProxies

/-- `b.get_proxy(country_name)` (models.py:53-54). -/
def get_proxyB (st : TwoManagers) (country_name : Str) : Option ProxyUnit :=
  (proxiesB st).lookup country_name

/-- A concrete `ProxyUnit` used to instantiate claims. -/
def demoProxyUnit : ProxyUnit :=
  ⟨"1.2.3.4".data, 1080, "user".data, "pass".data, "Europe/Berlin".data,
    "de-DE".data, 13, 52, "10115".data⟩

end Models

namespace Sched

open Models

/-!
Embedding of the scheduler `WebsiteProcessor.process_all` (main.py:374-464)
together with its helpers `_process_with_proxy` (main.py:203-241),
`_process_without_proxy` (main.py:177-201) and `_process_browser`
(main.py:243-362).

* Time is modelled in minutes as `Nat`; `datetime.now()` is the `now`
  field of the state, `timedelta(minutes=7)` is `+ 7`.  All events of a
  single processing attempt are stamped with the attempt's start time;
  the wall-clock time the attempt consumes is supplied by the
  environment and added afterwards.
* Each interaction with the outside world during one attempt (site
  availability probe, the two page titles, whether the download /
  PDF-and-archive pipeline succeeds) is read from an environment oracle
  `Env`, indexed by a per-run attempt counter.  Starting the proxy
  tunnel is not among them: `nekoray.Proxy.start` (proxy/nekoray.py,
  its `start` and `__enter__`) catches every startup error and returns
  `False`, so a dead tunnel surfaces as the availability probe failing.
* `procLog` is observational instrumentation only: it records, for every
  unit taken from the delayed side queue, the scheduler time at which
  its processing began.  No definition reads it.
-/

/-- `models.WorkUnit`. -/
structure WorkUnit where
  link : Str
  title : Str
  lang : Str
  image_url : Str
  description : Option Str
  is_downloaded : Bool
deriving DecidableEq, Repr

/-- `models.WaitWorkUnit`; `attempts` is an `Int` exactly like the
Python field, so that the `attempts - 1 == 0` / `attempts - 1 > 0`
tests of main.py:284,292,341,349 keep their semantics. -/
structure WaitWorkUnit where
  work : WorkUnit
  proxy : Option ProxyUnit
  timestamp : Nat
  attempts : Int
deriving DecidableEq, Repr

/-- `models.ResultWorkUnit`. -/
structure ResultWorkUnit where
  status : Str
  unit : WorkUnit
  timestamp : Nat
  path : Option Str := none
  context : Option Str := none
deriving DecidableEq, Repr

/-- The outside-world facts one processing attempt observes. -/
structure EnvStep where
  available : Bool     -- `check_site_availability` result
  mainTitle : Str      -- title seen by the direct (unproxied) browser
  secretTitle : Str    -- title seen by the mobile/stealth browser
  navOk : Bool         -- no exception up to and including the title reads
  downloadOk : Bool    -- `browser.download_website("website")` is truthy
  pipelineOk : Bool    -- pdf/info/move steps after the download do not raise
  duration : Nat       -- minutes of wall-clock time the attempt takes

/-- The environment oracle: outside-world facts per attempt index. -/
def Env := Nat → EnvStep

/-- Scheduler state: the delayed queue `self.side_queue`, the result log
`self.data`, the clock, the attempt counter, and the observational
`procLog`. -/
structure SState where
  side : List WaitWorkUnit
  data : List ResultWorkUnit
  now : Nat
  step : Nat
  procLog : List (WaitWorkUnit × Nat)
deriving DecidableEq, Repr

/-- The default no-proxy region string `"ru"`. -/
def ruStr : Str := "ru".data

/-- The unit a processing call works on: either a fresh `WorkUnit` with
the proxy passed alongside it, or a `WaitWorkUnit` from the side queue
(which carries its own proxy). -/
inductive BUnit where
  | fresh (work : WorkUnit) (proxy : Option ProxyUnit)
  | wait (u : WaitWorkUnit)
deriving DecidableEq, Repr

/-- The `WorkUnit` a `BUnit` is about (main.py:251-255). -/
def BUnit.work : BUnit → WorkUnit
  | .fresh w _ => w
  | .wait u => u.work

/-- The proxy in effect for a `BUnit` (main.py:211-215, 251-255). -/
def BUnit.proxy : BUnit → Option ProxyUnit
  | .fresh _ p => p
  | .wait u => u.proxy

/-- `ResultWorkUnit(status="error", unit=work, context="Ссылка недоступна")`
(main.py:191-195 and main.py:227-231). -/
def unavailableResult (w : WorkUnit) (t : Nat) : ResultWorkUnit :=
  ⟨"error".data, w, t, none, some "Ссылка недоступна".data⟩

/-- `ResultWorkUnit(status="error", unit=work, context="Ссылка устарела")`
(main.py:286-290 and main.py:343-347). -/
def staleResult (w : WorkUnit) (t : Nat) : ResultWorkUnit :=
  ⟨"error".data, w, t, none, some "Ссылка устарела".data⟩

/-- `ResultWorkUnit(status="error", unit=work,
context="Проблемы при загрузке сайта")` (main.py:311-314). -/
def downloadFailResult (w : WorkUnit) (t : Nat) : ResultWorkUnit :=
  ⟨"error".data, w, t, none, some "Проблемы при загрузке сайта".data⟩

/-- `ResultWorkUnit(status="error", unit=work,
context="Нет прокси для обработки ссылки")` (main.py:394-398). -/
def noProxyResult (w : WorkUnit) (t : Nat) : ResultWorkUnit :=
  ⟨"error".data, w, t, none, some "Нет прокси для обработки ссылки".data⟩

/-- `ResultWorkUnit(status="ok", path=website_path, unit=work)`
(main.py:331-334).  The artifact path is the per-region output root; its
numbered tail is modelled separately in the `Numbering` namespace and is
not inspected by any claim. -/
def okResult (w : WorkUnit) (t : Nat) : ResultWorkUnit :=
  ⟨"ok".data, w, t, some ("websites/".data ++ w.lang), none⟩

/-- The failure bookkeeping shared verbatim by the cloak branch
(main.py:282-306) and the exception handler (main.py:338-362) of
`_process_browser`: a fresh unit is requeued with `attempts=3` and
`timestamp = now + 7 minutes`; a `WaitWorkUnit` is either recorded as a
terminal stale error (`attempts - 1 == 0`), or requeued with the
decremented attempt count and the same fixed backoff
(`attempts - 1 > 0`); with `attempts ≤ 0` neither branch fires. -/
def requeueOrStale (u : BUnit) (st : SState) : SState :=
  match u with
  | .fresh w p => { st with side := st.side ++ [⟨w, p, st.now + 7, 3⟩] }
  | .wait wu =>
    if wu.attempts - 1 = 0 then
      { st with data := st.data ++ [staleResult wu.work st.now] }
    else if wu.attempts - 1 > 0 then
      { st with side :=
          st.side ++ [{ wu with attempts := wu.attempts - 1, timestamp := st.now + 7 }] }
    else st

/-- `WebsiteProcessor._process_browser` (main.py:243-362): optional
direct-browser probe and title comparison for non-"ru" regions, then
download, then the pdf/info/move pipeline; any exception routes through
the requeue logic; returns the `bool` the Python method returns. -/
def process_browser (e : EnvStep) (u : BUnit) (st : SState) : SState × Bool :=
  let w := u.work
  if !e.navOk then
    (requeueOrStale u st, false)
  else if w.lang ≠ ruStr ∧ e.mainTitle = e.secretTitle then
    (requeueOrStale u st, false)
  else if !e.downloadOk then
    ({ st with data := st.data ++ [downloadFailResult w st.now] }, false)
  else if !e.pipelineOk then
    (requeueOrStale u st, false)
  else
    ({ st with data := st.data ++ [okResult w st.now] }, true)

/-- `WebsiteProcessor._process_with_proxy` (main.py:203-241): when the
unit carries no proxy, `proxy.host` raises and the catch-all handler
(main.py:239-241) returns `False` recording nothing — a path
`process_all` never exercises (non-"ru" items resolve a registered
proxy, and delayed units are dispatched here only when they carry one).
Entering the `Proxy(...)` context itself cannot raise:
`nekoray.Proxy.start` catches every startup error and returns `False`,
so a dead tunnel surfaces as the availability probe failing, recorded
as a terminal unavailable result (main.py:225-232). -/
def process_with_proxy (e : EnvStep) (u : BUnit) (st : SState) : SState × Bool :=
  match u.proxy with
  | none => (st, false)
  | some _ =>
    if !e.available then
      ({ st with data := st.data ++ [unavailableResult u.work st.now] }, false)
    else process_browser e u st

/-- `WebsiteProcessor._process_without_proxy` (main.py:177-201). -/
def process_without_proxy (e : EnvStep) (u : BUnit) (st : SState) : SState × Bool :=
  if !e.available then
    ({ st with data := st.data ++ [unavailableResult u.work st.now] }, false)
  else process_browser e u st

/-- One proxied processing attempt: consume the next environment step,
run `_process_with_proxy`, then advance the clock by the attempt's
wall-clock duration. -/
def attemptWith (env : Env) (u : BUnit) (st : SState) : SState × Bool :=
  let e := env st.step
  let r := process_with_proxy e u { st with step := st.step + 1 }
  ({ r.1 with now := r.1.now + e.duration }, r.2)

/-- One unproxied processing attempt (as `attemptWith`, for
`_process_without_proxy`). -/
def attemptWithout (env : Env) (u : BUnit) (st : SState) : SState × Bool :=
  let e := env st.step
  let r := process_without_proxy e u { st with step := st.step + 1 }
  ({ r.1 with now := r.1.now + e.duration }, r.2)

/-- The scan of the delayed queue over a snapshot
(`for unit in list(self.side_queue)`, main.py:415-430 and 438-453): a
unit whose timestamp is due relative to the `current_time` snapshot `ct`
is removed from the live queue and processed, with or without proxy
according to `unit.proxy` (main.py:421, 444). -/
def sweep (env : Env) (ct : Nat) : List WaitWorkUnit → SState → SState
  | [], st => st
  | u :: rest, st =>
    if u.timestamp ≤ ct then
      let st1 : SState :=
        { st with side := st.side.erase u, procLog := st.procLog ++ [(u, st.now)] }
      let st2 :=
        if u.proxy.isSome then (attemptWith env (.wait u) st1).1
        else (attemptWithout env (.wait u) st1).1
      sweep env ct rest st2
    else sweep env ct rest st

/-- The region keys of the loaded proxy registry
(`self.proxy_manager.regions`; the registry is loaded from a JSON object
so keys are distinct). -/
def regionsOf (mgr : List (Str × ProxyUnit)) : List Str := mgr.map (·.1)

/-- The primary-queue loop of `process_all` (main.py:385-434): pop in
arrival order; a non-"ru" item without a registered region is a terminal
no-proxy error and `continue` skips the side-queue scan (main.py:400);
otherwise the item is processed (with proxy for non-"ru", without for
"ru") and the delayed queue is then scanned against a fresh
`current_time`. -/
def mainLoop (env : Env) (mgr : List (Str × ProxyUnit)) :
    List WorkUnit → SState → SState
  | [], st => st
  | work :: queue, st =>
    if work.lang ≠ ruStr then
      if !((regionsOf mgr).contains work.lang) then
        mainLoop env mgr queue
          { st with data := st.data ++ [noProxyResult work st.now] }
      else
        let st1 := (attemptWith env (.fresh work (mgr.lookup work.lang)) st).1
        mainLoop env mgr queue (sweep env st1.now st1.side st1)
    else
      let st1 := (attemptWithout env (.fresh work none) st).1
      mainLoop env mgr queue (sweep env st1.now st1.side st1)

/-- The drain-only phase of `process_all` (main.py:436-461): while the
delayed queue is nonempty, scan it against the current time, then sleep
until the head's timestamp if it is still in the future.  `fuel` bounds
the number of `while` iterations; `none` means the bound was too small. -/
def drain (env : Env) : Nat → SState → Option SState
  | 0, st => if st.side = [] then some st else none
  | fuel + 1, st =>
    if st.side = [] then some st
    else
      let st1 := sweep env st.now st.side st
      let st2 :=
        match st1.side with
        | [] => st1
        | u :: _ => { st1 with now := max st1.now u.timestamp }
      drain env fuel st2

/-- The initial scheduler state at clock time `now₀`. -/
def initState (now₀ : Nat) : SState := ⟨[], [], now₀, 0, []⟩

/-- `WebsiteProcessor.process_all` (main.py:374-464): the primary-queue
loop followed by the drain-only phase. -/
def process_all (env : Env) (mgr : List (Str × ProxyUnit)) (fuel : Nat)
    (items : List WorkUnit) (now₀ : Nat) : Option SState :=
  drain env fuel (mainLoop env mgr items (initState now₀))

/-- Whether `_process_browser` opens the direct (unproxied) probe
browser session (the `if work.lang != "ru"` guard of main.py:260). -/
def opensProbeBrowser (u : BUnit) : Bool := u.work.lang != ruStr

/-- Whether `_process_browser` reaches the capture call
`browser.download_website` (main.py:308): no exception so far, and for a
non-"ru" region the two titles differed. -/
def reachesCapture (e : EnvStep) (u : BUnit) : Bool :=
  e.navOk && (u.work.lang == ruStr || e.mainTitle != e.secretTitle)

/-- The multiset of work items a scheduler state accounts for: the units
of the recorded results plus the work items waiting in the delayed
queue. -/
def accounted (st : SState) : Multiset WorkUnit :=
  (↑(st.data.map ResultWorkUnit.unit) : Multiset WorkUnit)
    + (↑(st.side.map WaitWorkUnit.work) : Multiset WorkUnit)

/-- Every queued retry has at least one attempt left (the invariant that
rules out the dead `attempts ≤ 0` branch of the requeue logic). -/
def goodSide (side : List WaitWorkUnit) : Prop :=
  ∀ u ∈ side, 1 ≤ u.attempts

/-- Every recorded side-queue processing happened at or after the item's
`notBefore` timestamp. -/
def timesOk (log : List (WaitWorkUnit × Nat)) : Prop :=
  ∀ pr ∈ log, pr.1.timestamp ≤ pr.2

end Sched

section RewriteLemmas

open PyStr Rewrite

/-- A quote-free string has no regex match: the scan never encounters an
opening quote. -/
theorem findFirstMatch_noQuotes (stem : Str) :
    ∀ s : Str, noQuotes s = true → findFirstMatch stem s = none := by
  intro s
  induction s with
  | nil => intro _; rfl
  | cons c rest ih =>
    intro h
    simp only [noQuotes, List.all_cons, Bool.and_eq_true, Bool.not_eq_true'] at h
    simp only [findFirstMatch, h.1, Bool.false_eq_true, if_false]
    exact ih (by simpa [noQuotes] using h.2)

/-- A quote-free HTML document passes through `replace_urls_in_html`
unchanged, whatever the mapping. -/
theorem replace_urls_noQuotes (m : List (Str × Str)) :
    ∀ html : Str, noQuotes html = true → replace_urls_in_html html m = html := by
  induction m with
  | nil => intro html _; rfl
  | cons entry rest ih =>
    intro html h
    show List.foldl _ _ (entry :: rest) = html
    simp only [List.foldl_cons]
    by_cases hstem : stemOf entry.1 = []
    · simpa [replace_urls_in_html, hstem] using ih html h
    · simpa [replace_urls_in_html, hstem, findFirstMatch_noQuotes _ html h] using
        ih html h

end RewriteLemmas

section NumberingLemmas

open Numbering

theorem foldl_max_init_le (l : List Nat) : ∀ a : Nat, a ≤ l.foldl Nat.max a := by
  induction l with
  | nil => intro a; exact le_refl a
  | cons x xs ih =>
    intro a
    exact le_trans (Nat.le_max_left a x) (ih (Nat.max a x))

theorem le_foldl_max_of_mem (l : List Nat) :
    ∀ a n : Nat, n ∈ l → n ≤ l.foldl Nat.max a := by
  induction l with
  | nil => intro a n h; cases h
  | cons x xs ih =>
    intro a n h
    rcases List.mem_cons.mp h with h | h
    · subst h
      exact le_trans (Nat.le_max_right a n) (foldl_max_init_le xs _)
    · exact ih _ n h

theorem foldl_max_le (l : List Nat) :
    ∀ a m : Nat, a ≤ m → (∀ n ∈ l, n ≤ m) → l.foldl Nat.max a ≤ m := by
  induction l with
  | nil => intro a m ha _; exact ha
  | cons x xs ih =>
    intro a m ha hl
    exact ih _ m (Nat.max_le.mpr ⟨ha, hl x (List.mem_cons_self x xs)⟩)
      (fun n hn => hl n (List.mem_cons_of_mem x hn))

end NumberingLemmas

section ClaimC4

open PyStr Rewrite

/-- C4 counterexample: take the mapping
`http://a/img.png ↦ local/hash.bin` and an HTML document that contains
the full source URL (a candidate textual form) outside any quotes.  The
code leaves the document completely unchanged — the occurrence is not
replaced with the local filename `hash.bin` — because the replacement
only ever touches quote-delimited regex matches, refuting the claim that
every occurrence of any candidate string is replaced. -/
theorem c4_counterexample :
    replace_urls_in_html "see http://a/img.png end".data
        [("http://a/img.png".data, "local/hash.bin".data)]
      = "see http://a/img.png end".data
    ∧ hasSub "http://a/img.png".data "see http://a/img.png end".data = true
    ∧ replace_urls_in_html "see http://a/img.png end".data
        [("http://a/img.png".data, "local/hash.bin".data)]
      ≠ "see hash.bin end".data := by
  refine ⟨by decide, by decide, by decide⟩

/-- C4 amended: `replace_urls_in_html` rewrites only quote-delimited
occurrences matching its filename-stem regex (and among those only the
first match per resource); in particular an HTML document containing no
quote character at all is returned unchanged, regardless of how many
candidate URL forms occur in it. -/
theorem c4_amended (html : Str) (m : List (Str × Str))
    (h : noQuotes html = true) : replace_urls_in_html html m = html :=
  replace_urls_noQuotes m html h

/-- C4 witness: the amended theorem at a concrete quote-free document. -/
theorem c4_witness :
    noQuotes "a http://a/img.png b".data = true
    ∧ replace_urls_in_html "a http://a/img.png b".data
        [("http://a/img.png".data, "x/y.png".data)] = "a http://a/img.png b".data :=
  ⟨by decide, c4_amended _ _ (by decide)⟩

end ClaimC4

section ClaimC8

open PyStr Rewrite

/-- C8 counterexample: with the single-entry mapping
`http://a/img.png ↦ local/hash.bin` and the HTML
`"a/img.png" "b/img.png"`, the first application rewrites only the first
quoted match (`a/img.png` becomes `hash.bin`), after which the second
quoted reference becomes the first regex match of the second
application, which therefore rewrites further: applying the rewrite
twice does not equal applying it once. -/
theorem c8_counterexample :
    replace_urls_in_html
        (replace_urls_in_html "\"a/img.png\" \"b/img.png\"".data
          [("http://a/img.png".data, "local/hash.bin".data)])
        [("http://a/img.png".data, "local/hash.bin".data)]
      ≠ replace_urls_in_html "\"a/img.png\" \"b/img.png\"".data
          [("http://a/img.png".data, "local/hash.bin".data)] := by
  decide

/-- C8 amended: the rewrite is idempotent on quote-free HTML (where it
is the identity); on documents with quoted references a second
application can rewrite additional matches that the first left
untouched, so unrestricted idempotence fails. -/
theorem c8_amended (html : Str) (m : List (Str × Str))
    (h : noQuotes html = true) :
    replace_urls_in_html (replace_urls_in_html html m) m
      = replace_urls_in_html html m := by
  rw [replace_urls_noQuotes m html h, replace_urls_noQuotes m html h]

/-- C8 witness: the amended theorem at a concrete quote-free document. -/
theorem c8_witness :
    noQuotes "p img.png q".data = true
    ∧ replace_urls_in_html
        (replace_urls_in_html "p img.png q".data
          [("http://a/img.png".data, "x/y.png".data)])
        [("http://a/img.png".data, "x/y.png".data)]
      = replace_urls_in_html "p img.png q".data
          [("http://a/img.png".data, "x/y.png".data)] :=
  ⟨by decide, c8_amended _ _ (by decide)⟩

end ClaimC8

section ClaimC6

open Archive

/-- C6: `make_archive` attempts to delete the source folder only when
source removal was requested AND the source existed, was a directory,
the zip call succeeded and the resulting archive file was verified to
exist; conversely, whenever zipping fails or the archive file is absent,
the call raises (returns an error) and never attempts the deletion. -/
theorem c6_archive_before_delete (w : World) (archivePath : Str) (remove_source : Bool) :
    ((make_archive w archivePath remove_source).removalAttempted = true →
        remove_source = true ∧ w.folderExists = true ∧ w.folderIsDir = true
        ∧ w.zipSucceeds = true ∧ w.zipResultExists = true)
    ∧ ((w.zipSucceeds = false ∨ w.zipResultExists = false) →
        (make_archive w archivePath remove_source).result.isError = true
        ∧ (make_archive w archivePath remove_source).removalAttempted = false) := by
  obtain ⟨fe, fd, zs, zr, rm⟩ := w
  cases fe <;> cases fd <;> cases zs <;> cases zr <;> cases rm <;>
    cases remove_source <;>
      simp [make_archive, PyResult.isError]

/-- C6 witness: a world where the zip call fails, instantiated through
the claim theorem. -/
theorem c6_witness :
    (make_archive ⟨true, true, false, true, true⟩ "a.zip".data true).result.isError = true
    ∧ (make_archive ⟨true, true, false, true, true⟩ "a.zip".data true).removalAttempted
        = false :=
  (c6_archive_before_delete ⟨true, true, false, true, true⟩ "a.zip".data true).2
    (Or.inl rfl)

end ClaimC6

section ClaimC7

open Numbering

/-- C7: the allocated numbered subdirectory is `1` when no numeric-named
subdirectory exists, is `max + 1` of the existing numbers otherwise
(hence strictly greater than every existing number), and on the concrete
listing `{1, 2, 4}` both `DirManager.move_to_numbered_dir` and
`UndetectBrowser.move_temp_to_numbered_folder` allocate `5`, not `3`. -/
theorem c7_next_numbered_dir (entries : List (Str × Bool)) :
    (existingFolders entries = [] → nextFolderNumber entries = 1)
    ∧ (∀ m : Nat, (existingFolders entries).maximum = some m →
        nextFolderNumber entries = m + 1)
    ∧ (∀ n ∈ existingFolders entries, n < nextFolderNumber entries)
    ∧ move_to_numbered_dir [("1".data, true), ("2".data, true), ("4".data, true)]
        = "5".data
    ∧ move_temp_to_numbered_folder false
        [("1".data, true), ("2".data, true), ("4".data, true)] = "5".data := by
  refine ⟨?_, ?_, ?_, by decide, by decide⟩
  · intro h
    simp [nextFolderNumber, h]
  · intro m hm
    have hmem : m ∈ existingFolders entries := List.maximum_mem hm
    have hle : ∀ n ∈ existingFolders entries, n ≤ m := fun n hn =>
      List.le_maximum_of_mem hn hm
    have hfold : (existingFolders entries).foldl Nat.max 0 = m :=
      le_antisymm (foldl_max_le _ 0 m (Nat.zero_le m) hle)
        (le_foldl_max_of_mem _ 0 m hmem)
    cases hCase : existingFolders entries with
    | nil => rw [hCase] at hmem; cases hmem
    | cons x xs =>
      rw [hCase] at hfold
      simp [nextFolderNumber, hCase, hfold]
  · intro n hn
    have h2 : n ≤ (existingFolders entries).foldl Nat.max 0 :=
      le_foldl_max_of_mem _ 0 n hn
    cases hCase : existingFolders entries with
    | nil => rw [hCase] at hn; cases hn
    | cons x xs =>
      rw [hCase] at h2
      simp only [nextFolderNumber, hCase]
      omega

/-- C7 witness: the general part of the claim theorem instantiated on
the listing `{1, 2, 4}` (maximum 4, successor 5). -/
theorem c7_witness :
    nextFolderNumber [("1".data, true), ("2".data, true), ("4".data, true)] = 4 + 1 :=
  (c7_next_numbered_dir _).2.1 4 (by decide)

end ClaimC7

section ClaimC9

open PyStr Filename

/-- C9 counterexample: for the URL `http://x/photo` with response
content-type `image/jpeg`, `_generate_filename` produces `photo.jpeg`
(the extension table at browser.py:503 maps `image/jpeg` to `.jpeg`),
not `photo.jpg` as the claim states.  The hash function is irrelevant
here since the basename is nonempty. -/
theorem c9_counterexample :
    generate_filename (fun _ => []) "http://x/photo".data (some "image/jpeg".data)
      = "photo.jpeg".data
    ∧ generate_filename (fun _ => []) "http://x/photo".data (some "image/jpeg".data)
      ≠ "photo.jpg".data := by
  exact ⟨by decide, by decide⟩

/-- C9 amended: the derived filename is the URL path's basename, or the
content hash when that basename is empty; when the (`;`-trimmed)
content-type is in the known-extension table — which maps `image/jpeg`
to `.jpeg` — the extension is appended exactly when the filename does
not already end with it, and an absent or unknown content-type leaves
the filename untouched. -/
theorem c9_filename_derivation (md5hex : Str → Str) (url : Str) :
    (generate_filename md5hex url none = rawFilename md5hex url)
    ∧ (∀ ct, extensions.lookup (normalizeContentType ct) = none →
        generate_filename md5hex url (some ct) = rawFilename md5hex url)
    ∧ (∀ ct ext, extensions.lookup (normalizeContentType ct) = some ext →
        generate_filename md5hex url (some ct)
          = if ext.isSuffixOf (rawFilename md5hex url) then rawFilename md5hex url
            else rawFilename md5hex url ++ ext)
    ∧ (os_path_basename ((urlparse_path url).dropWhile (fun c => c = '/')) ≠ [] →
        rawFilename md5hex url
          = os_path_basename ((urlparse_path url).dropWhile (fun c => c = '/')))
    ∧ (os_path_basename ((urlparse_path url).dropWhile (fun c => c = '/')) = [] →
        rawFilename md5hex url = md5hex url) := by
  refine ⟨rfl, ?_, ?_, ?_, ?_⟩
  · intro ct h
    simp [generate_filename, h]
  · intro ct ext h
    simp [generate_filename, h]
  · intro h
    simp [rawFilename, h]
  · intro h
    simp [rawFilename, h]

/-- C9 witness: the claim theorem instantiated at `http://x/a.css` with
content-type `text/css` (known extension, already present, nothing
appended). -/
theorem c9_witness :
    generate_filename (fun _ => []) "http://x/a.css".data (some "text/css".data)
      = if ".css".data.isSuffixOf (rawFilename (fun _ => []) "http://x/a.css".data)
        then rawFilename (fun _ => []) "http://x/a.css".data
        else rawFilename (fun _ => []) "http://x/a.css".data ++ ".css".data :=
  (c9_filename_derivation (fun _ => []) "http://x/a.css".data).2.2.1
    "text/css".data ".css".data (by decide)

end ClaimC9

section ClaimC10

open Models

/-- C10: the `ProxyManager` registry is process-wide shared mutable
state, not per-instance state.  Starting from two freshly constructed
instances A and B, a single `add_proxy("de", unit)` on A makes the new
region and proxy visible through B (`b.regions`, `b.proxies` and even
`b.get_proxy("de")` change), while `b.count` stays `0` — because
`regions` and `proxies` are class attributes mutated in place, whereas
`count += 1` creates an instance attribute on A only.  This contradicts
the claim (and spec §9), which require `add_proxy` on one instance to
leave the other instance's observations unchanged. -/
theorem c10_shared_class_state :
    regionsB freshTwo = [] ∧ proxiesB freshTwo = [] ∧ countB freshTwo = 0
    ∧ regionsB (add_proxyA freshTwo "de".data demoProxyUnit) = ["de".data]
    ∧ proxiesB (add_proxyA freshTwo "de".data demoProxyUnit)
        = [("de".data, demoProxyUnit)]
    ∧ get_proxyB (add_proxyA freshTwo "de".data demoProxyUnit) "de".data
        = some demoProxyUnit
    ∧ countB (add_proxyA freshTwo "de".data demoProxyUnit) = 0 := by
  refine ⟨rfl, rfl, rfl, rfl, rfl, by decide, rfl⟩

end ClaimC10

section ClaimC5

open Models Sched

/-- C5: in `_process_browser`, a fresh work item in a non-"ru" region
whose direct-session title equals the stealth-session title is appended
to the delayed queue as a `WaitWorkUnit` with 3 attempts and a 7-minute
backoff, nothing is appended to the result log, the capture call is
never reached and the method returns `False`; for the default "ru"
region the direct probe browser is never opened, the capture stage is
reached whenever navigation succeeded, and the outcome does not depend
on the observed titles at all. -/
theorem c5_cloak_detection (e : EnvStep) (st : SState) (w : WorkUnit)
    (p : Option ProxyUnit) :
    (w.lang ≠ ruStr → e.navOk = true → e.mainTitle = e.secretTitle →
        (process_browser e (.fresh w p) st).1.side = st.side ++ [⟨w, p, st.now + 7, 3⟩]
        ∧ (process_browser e (.fresh w p) st).1.data = st.data
        ∧ (process_browser e (.fresh w p) st).2 = false
        ∧ reachesCapture e (.fresh w p) = false)
    ∧ (w.lang = ruStr →
        opensProbeBrowser (.fresh w p) = false
        ∧ reachesCapture e (.fresh w p) = e.navOk
        ∧ ∀ t₁ t₂ : Str,
            process_browser e (.fresh w p) st
              = process_browser
                  { e with mainTitle := t₁, secretTitle := t₂ } (.fresh w p) st) := by
  constructor
  · intro hlang hnav heq
    refine ⟨?_, ?_, ?_, ?_⟩ <;>
      simp [process_browser, requeueOrStale, reachesCapture, BUnit.work,
        hlang, hnav, heq]
  · intro hlang
    refine ⟨?_, ?_, ?_⟩
    · simp [opensProbeBrowser, BUnit.work, hlang]
    · simp [reachesCapture, BUnit.work, hlang]
    · intro t₁ t₂
      simp [process_browser, BUnit.work, hlang]

/-- C5 witness: a concrete non-"ru" fresh item with equal titles is
requeued (attempts 3, `notBefore = 7` from time 0) and recorded nowhere. -/
theorem c5_witness :
    let w : WorkUnit :=
      ⟨"https://x.de".data, "t".data, "de".data, "i".data, none, false⟩
    let e : EnvStep :=
      ⟨true, "Title".data, "Title".data, true, true, true, 1⟩
    (process_browser e (.fresh w (some demoProxyUnit)) (initState 0)).1.side
        = [⟨w, some demoProxyUnit, 7, 3⟩]
    ∧ (process_browser e (.fresh w (some demoProxyUnit)) (initState 0)).1.data = [] := by
  intro w e
  have h := c5_cloak_detection e (initState 0) w (some demoProxyUnit)
  have h1 := h.1 (by decide) rfl rfl
  exact ⟨h1.1, h1.2.1⟩

end ClaimC5

section ClaimC2

open Models Sched

/-- C2 counterexample: a fresh "ru" item that fails at the capture step
(`browser.download_website` returns a falsy value, main.py:308) is NOT
requeued with `attemptsRemaining = 3`: `_process_browser` records an
immediate terminal error result (context "Проблемы при загрузке сайта")
and leaves the delayed queue empty, refuting the claim that every
capture error on a first failure yields a `PendingRetry`. -/
theorem c2_counterexample :
    (process_without_proxy
        ⟨true, "A".data, "B".data, true, false, true, 0⟩
        (.fresh ⟨"https://x.ru".data, "t".data, "ru".data, "i".data, none, false⟩ none)
        (initState 0)).1.side = []
    ∧ (process_without_proxy
        ⟨true, "A".data, "B".data, true, false, true, 0⟩
        (.fresh ⟨"https://x.ru".data, "t".data, "ru".data, "i".data, none, false⟩ none)
        (initState 0)).1.data
      = [downloadFailResult
          ⟨"https://x.ru".data, "t".data, "ru".data, "i".data, none, false⟩ 0] := by
  exact ⟨by decide, by decide⟩

/-- C2 amended: for every failure that reaches the requeue logic — a
navigation exception (`navOk = false`), a detected cloak (equal titles
in a non-"ru" region), or a pipeline exception after a successful
download (`pipelineOk = false`, the pdf/info/move steps of
main.py:323-328 raising into the handler at main.py:338-362) —
`_process_browser` requeues a fresh item as a `WaitWorkUnit` with
`attempts = 3` and `timestamp = now + 7` minutes; a re-attempted item
with at least 2 attempts left is requeued with the attempt count
strictly decreased by one and the same fixed backoff; and an item on
its last attempt (`attempts = 1`) is recorded as a terminal stale-link
error and not requeued.  (A capture failure signalled by a falsy
`download_website` return is instead an immediate terminal error; see
the counterexample.) -/
theorem c2_retry_policy (e : EnvStep) (st : SState) (u : BUnit)
    (hfail : e.navOk = false
      ∨ (e.navOk = true ∧ u.work.lang ≠ ruStr ∧ e.mainTitle = e.secretTitle)
      ∨ (e.navOk = true ∧ (u.work.lang = ruStr ∨ e.mainTitle ≠ e.secretTitle)
          ∧ e.downloadOk = true ∧ e.pipelineOk = false)) :
    (∀ w p, u = .fresh w p →
        (process_browser e u st).1.side = st.side ++ [⟨w, p, st.now + 7, 3⟩]
        ∧ (process_browser e u st).1.data = st.data)
    ∧ (∀ wu, u = .wait wu → 2 ≤ wu.attempts →
        (process_browser e u st).1.side
            = st.side ++ [{ wu with attempts := wu.attempts - 1, timestamp := st.now + 7 }]
        ∧ (process_browser e u st).1.data = st.data
        ∧ wu.attempts - 1 < wu.attempts)
    ∧ (∀ wu, u = .wait wu → wu.attempts = 1 →
        (process_browser e u st).1.data = st.data ++ [staleResult wu.work st.now]
        ∧ (process_browser e u st).1.side = st.side) := by
  have hbr : (process_browser e u st).1 = requeueOrStale u st
      ∧ (process_browser e u st).2 = false := by
    rcases hfail with hnav | ⟨hnav, hlang, heq⟩ | ⟨hnav, hor, hdl, hpl⟩
    · constructor <;> simp [process_browser, hnav]
    · constructor <;> simp [process_browser, hnav, hlang, heq]
    · have hcond : ¬(u.work.lang ≠ ruStr ∧ e.mainTitle = e.secretTitle) := by
        rcases hor with h | h
        · simp [h]
        · simp [h]
      constructor <;> simp [process_browser, hnav, hcond, hdl, hpl]
  refine ⟨?_, ?_, ?_⟩
  · intro w p hu
    subst hu
    rw [hbr.1]
    exact ⟨rfl, rfl⟩
  · intro wu hu hatt
    subst hu
    rw [hbr.1]
    have h0 : ¬(wu.attempts - 1 = 0) := by omega
    have h1 : wu.attempts - 1 > 0 := by omega
    refine ⟨?_, ?_, by omega⟩ <;> simp [requeueOrStale, h0, h1]
  · intro wu hu hatt
    subst hu
    rw [hbr.1]
    have h0 : wu.attempts - 1 = 0 := by omega
    constructor <;> simp [requeueOrStale, h0]

/-- C2 witness: the amended retry policy at concrete inputs — a fresh
item failing by navigation error is requeued with 3 attempts, a
`WaitWorkUnit` with 2 attempts failing again is requeued with 1
attempt, and a fresh "ru" item whose download succeeded but whose
pipeline step raised is requeued with 3 attempts — all with the
7-minute backoff from time 0. -/
theorem c2_witness :
    let w : WorkUnit :=
      ⟨"https://x.de".data, "t".data, "de".data, "i".data, none, false⟩
    let wru : WorkUnit :=
      ⟨"https://x.ru".data, "t".data, "ru".data, "i".data, none, false⟩
    let e : EnvStep :=
      ⟨true, "A".data, "B".data, false, true, true, 0⟩
    let ep : EnvStep :=
      ⟨true, "A".data, "B".data, true, true, false, 0⟩
    let wu : WaitWorkUnit := ⟨w, some demoProxyUnit, 0, 2⟩
    (process_browser e (.fresh w (some demoProxyUnit)) (initState 0)).1.side
        = [⟨w, some demoProxyUnit, 7, 3⟩]
    ∧ (process_browser e (.wait wu) (initState 0)).1.side
        = [⟨w, some demoProxyUnit, 7, 1⟩]
    ∧ (process_browser ep (.fresh wru none) (initState 0)).1.side
        = [⟨wru, none, 7, 3⟩] := by
  intro w wru e ep wu
  refine ⟨?_, ?_, ?_⟩
  · have h := (c2_retry_policy e (initState 0) (.fresh w (some demoProxyUnit))
      (Or.inl rfl)).1 w (some demoProxyUnit) rfl
    simpa [initState] using h.1
  · have h := (c2_retry_policy e (initState 0) (.wait wu)
      (Or.inl rfl)).2.1 wu rfl (by decide)
    simpa [initState, wu] using h.1
  · have h := (c2_retry_policy ep (initState 0) (.fresh wru none)
      (Or.inr (Or.inr ⟨rfl, Or.inl rfl, rfl, rfl⟩))).1 wru none rfl
    simpa [initState] using h.1

end ClaimC2

section SchedInfra

open Models Sched

/-- Every branch of the requeue logic only appends to the side queue and
the result log, leaving clock, attempt counter and processing log
untouched. -/
theorem requeueOrStale_shape (u : BUnit) (st : SState) :
    ∃ sideExt dataExt,
      requeueOrStale u st
        = { st with side := st.side ++ sideExt, data := st.data ++ dataExt } := by
  cases u with
  | fresh w p =>
    exact ⟨[⟨w, p, st.now + 7, 3⟩], [], by simp [requeueOrStale]⟩
  | wait wu =>
    by_cases h0 : wu.attempts - 1 = 0
    · exact ⟨[], [staleResult wu.work st.now], by simp [requeueOrStale, h0]⟩
    · by_cases h1 : wu.attempts - 1 > 0
      · exact ⟨[{ wu with attempts := wu.attempts - 1, timestamp := st.now + 7 }], [],
          by simp [requeueOrStale, h0, h1]⟩
      · exact ⟨[], [], by simp [requeueOrStale, h0, h1]⟩

/-- `_process_browser` only appends to the side queue and result log. -/
theorem process_browser_shape (e : EnvStep) (u : BUnit) (st : SState) :
    ∃ sideExt dataExt,
      (process_browser e u st).1
        = { st with side := st.side ++ sideExt, data := st.data ++ dataExt } := by
  by_cases h1 : e.navOk = false
  · simpa [process_browser, h1] using requeueOrStale_shape u st
  by_cases h2 : u.work.lang ≠ ruStr ∧ e.mainTitle = e.secretTitle
  · simpa [process_browser, h1, h2] using requeueOrStale_shape u st
  by_cases h3 : e.downloadOk = false
  · exact ⟨[], [downloadFailResult u.work st.now],
      by simp [process_browser, h1, h2, h3]⟩
  by_cases h4 : e.pipelineOk = false
  · simpa [process_browser, h1, h2, h3, h4] using requeueOrStale_shape u st
  · exact ⟨[], [okResult u.work st.now],
      by simp [process_browser, h1, h2, h3, h4]⟩

/-- `_process_with_proxy` only appends to the side queue and result log. -/
theorem process_with_proxy_shape (e : EnvStep) (u : BUnit) (st : SState) :
    ∃ sideExt dataExt,
      (process_with_proxy e u st).1
        = { st with side := st.side ++ sideExt, data := st.data ++ dataExt } := by
  cases hp : u.proxy with
  | none => exact ⟨[], [], by simp [process_with_proxy, hp]⟩
  | some p =>
    by_cases ha : e.available = false
    · exact ⟨[], [unavailableResult u.work st.now],
        by simp [process_with_proxy, hp, ha]⟩
    · simpa [process_with_proxy, hp, ha] using process_browser_shape e u st

/-- `_process_without_proxy` only appends to the side queue and result
log. -/
theorem process_without_proxy_shape (e : EnvStep) (u : BUnit) (st : SState) :
    ∃ sideExt dataExt,
      (process_without_proxy e u st).1
        = { st with side := st.side ++ sideExt, data := st.data ++ dataExt } := by
  by_cases ha : e.available = false
  · exact ⟨[], [unavailableResult u.work st.now],
      by simp [process_without_proxy, ha]⟩
  · simpa [process_without_proxy, ha] using process_browser_shape e u st

/-- A proxied attempt appends to side queue and result log, bumps the
attempt counter, and advances the clock by the step's duration. -/
theorem attemptWith_shape (env : Env) (u : BUnit) (st : SState) :
    ∃ sideExt dataExt,
      (attemptWith env u st).1
        = { st with
              side := st.side ++ sideExt, data := st.data ++ dataExt,
              step := st.step + 1,
              now := st.now + (env st.step).duration } := by
  obtain ⟨se, de, h⟩ :=
    process_with_proxy_shape (env st.step) u { st with step := st.step + 1 }
  exact ⟨se, de, by simp [attemptWith, h]⟩

/-- An unproxied attempt appends to side queue and result log, bumps the
attempt counter, and advances the clock by the step's duration. -/
theorem attemptWithout_shape (env : Env) (u : BUnit) (st : SState) :
    ∃ sideExt dataExt,
      (attemptWithout env u st).1
        = { st with
              side := st.side ++ sideExt, data := st.data ++ dataExt,
              step := st.step + 1,
              now := st.now + (env st.step).duration } := by
  obtain ⟨se, de, h⟩ :=
    process_without_proxy_shape (env st.step) u { st with step := st.step + 1 }
  exact ⟨se, de, by simp [attemptWithout, h]⟩

/-- Appending a result moves its unit into the accounted multiset. -/
theorem accounted_data_append (st : SState) (r : ResultWorkUnit) :
    accounted { st with data := st.data ++ [r] } = accounted st + {r.unit} := by
  simp only [accounted, List.map_append, List.map_cons, List.map_nil,
    ← Multiset.coe_add, Multiset.coe_singleton]
  exact add_right_comm _ _ _

/-- Appending a waiting unit moves its work into the accounted multiset. -/
theorem accounted_side_append (st : SState) (x : WaitWorkUnit) :
    accounted { st with side := st.side ++ [x] } = accounted st + {x.work} := by
  simp only [accounted, List.map_append, List.map_cons, List.map_nil,
    ← Multiset.coe_add, Multiset.coe_singleton]
  exact (add_assoc _ _ _).symm

/-- The requeue logic accounts its unit's work item exactly once (as a
terminal result or as a requeued retry) and keeps every queued retry at
one attempt or more — provided the incoming retry, if any, has at least
one attempt left. -/
theorem requeueOrStale_spec (u : BUnit) (st : SState)
    (hw : ∀ wu, u = BUnit.wait wu → 1 ≤ wu.attempts) :
    accounted (requeueOrStale u st) = accounted st + {u.work}
    ∧ (goodSide st.side → goodSide (requeueOrStale u st).side) := by
  cases u with
  | fresh w p =>
    constructor
    · simpa [requeueOrStale] using accounted_side_append st ⟨w, p, st.now + 7, 3⟩
    · intro hg v hv
      simp only [requeueOrStale, List.mem_append, List.mem_singleton] at hv
      rcases hv with hv | hv
      · exact hg v hv
      · subst hv; norm_num
  | wait wu =>
    have ha : 1 ≤ wu.attempts := hw wu rfl
    by_cases h0 : wu.attempts - 1 = 0
    · constructor
      · simpa [requeueOrStale, h0] using
          accounted_data_append st (staleResult wu.work st.now)
      · intro hg
        simpa [requeueOrStale, h0] using hg
    · have h1 : wu.attempts - 1 > 0 := by omega
      constructor
      · simpa [requeueOrStale, h0, h1] using accounted_side_append st
          { wu with attempts := wu.attempts - 1, timestamp := st.now + 7 }
      · intro hg v hv
        simp only [requeueOrStale, h0, h1, if_true, if_false, List.mem_append,
          List.mem_singleton] at hv
        rcases hv with hv | hv
        · exact hg v hv
        · subst hv
          show 1 ≤ wu.attempts - 1
          omega

/-- `_process_browser` accounts its unit's work item exactly once and
preserves the side-queue attempts invariant. -/
theorem process_browser_spec (e : EnvStep) (u : BUnit) (st : SState)
    (hw : ∀ wu, u = BUnit.wait wu → 1 ≤ wu.attempts) :
    accounted (process_browser e u st).1 = accounted st + {u.work}
    ∧ (goodSide st.side → goodSide (process_browser e u st).1.side) := by
  by_cases h1 : e.navOk = false
  · simpa [process_browser, h1] using requeueOrStale_spec u st hw
  by_cases h2 : u.work.lang ≠ ruStr ∧ e.mainTitle = e.secretTitle
  · simpa [process_browser, h1, h2] using requeueOrStale_spec u st hw
  by_cases h3 : e.downloadOk = false
  · constructor
    · simpa [process_browser, h1, h2, h3] using
        accounted_data_append st (downloadFailResult u.work st.now)
    · intro hg
      simpa [process_browser, h1, h2, h3] using hg
  by_cases h4 : e.pipelineOk = false
  · simpa [process_browser, h1, h2, h3, h4] using requeueOrStale_spec u st hw
  · constructor
    · simpa [process_browser, h1, h2, h3, h4] using
        accounted_data_append st (okResult u.work st.now)
    · intro hg
      simpa [process_browser, h1, h2, h3, h4] using hg

/-- `_process_with_proxy` accounts its unit's work item exactly once and
preserves the attempts invariant, provided the unit actually carries a
proxy. -/
theorem process_with_proxy_spec (e : EnvStep) (u : BUnit) (st : SState)
    (hw : ∀ wu, u = BUnit.wait wu → 1 ≤ wu.attempts)
    (hp : u.proxy.isSome = true) :
    accounted (process_with_proxy e u st).1 = accounted st + {u.work}
    ∧ (goodSide st.side → goodSide (process_with_proxy e u st).1.side) := by
  cases hu : u.proxy with
  | none => rw [hu] at hp; cases hp
  | some p =>
    by_cases ha : e.available = false
    · constructor
      · simpa [process_with_proxy, hu, ha] using
          accounted_data_append st (unavailableResult u.work st.now)
      · intro hg
        simpa [process_with_proxy, hu, ha] using hg
    · simpa [process_with_proxy, hu, ha] using process_browser_spec e u st hw

/-- `_process_without_proxy` accounts its unit's work item exactly once
and preserves the attempts invariant. -/
theorem process_without_proxy_spec (e : EnvStep) (u : BUnit) (st : SState)
    (hw : ∀ wu, u = BUnit.wait wu → 1 ≤ wu.attempts) :
    accounted (process_without_proxy e u st).1 = accounted st + {u.work}
    ∧ (goodSide st.side → goodSide (process_without_proxy e u st).1.side) := by
  by_cases ha : e.available = false
  · constructor
    · simpa [process_without_proxy, ha] using
        accounted_data_append st (unavailableResult u.work st.now)
    · intro hg
      simpa [process_without_proxy, ha] using hg
  · simpa [process_without_proxy, ha] using process_browser_spec e u st hw

/-- A proxied attempt accounts its unit's work item exactly once and
preserves the attempts invariant. -/
theorem attemptWith_spec (env : Env) (u : BUnit) (st : SState)
    (hw : ∀ wu, u = BUnit.wait wu → 1 ≤ wu.attempts)
    (hp : u.proxy.isSome = true) :
    accounted (attemptWith env u st).1 = accounted st + {u.work}
    ∧ (goodSide st.side → goodSide (attemptWith env u st).1.side) := by
  have h := process_with_proxy_spec (env st.step) u { st with step := st.step + 1 }
    hw hp
  exact h

/-- An unproxied attempt accounts its unit's work item exactly once and
preserves the attempts invariant. -/
theorem attemptWithout_spec (env : Env) (u : BUnit) (st : SState)
    (hw : ∀ wu, u = BUnit.wait wu → 1 ≤ wu.attempts) :
    accounted (attemptWithout env u st).1 = accounted st + {u.work}
    ∧ (goodSide st.side → goodSide (attemptWithout env u st).1.side) := by
  have h := process_without_proxy_spec (env st.step) u { st with step := st.step + 1 }
    hw
  exact h

/-- Mapping over a list with one occurrence of `a` removed: the image
multiset regains `f a` as an explicit cons. -/
theorem map_coe_erase_cons {α β : Type} [DecidableEq α] (f : α → β) {a : α}
    {l : List α} (h : a ∈ l) :
    (↑(l.map f) : Multiset β) = f a ::ₘ ↑((l.erase a).map f) := by
  obtain ⟨l₁, l₂, _, hdec, herase⟩ := List.exists_erase_eq h
  rw [herase, hdec]
  simp only [List.map_append, List.map_cons, ← Multiset.coe_add,
    ← Multiset.cons_coe, Multiset.add_cons]

/-- Removing a due unit from the side queue takes its work item out of
the accounted multiset (to be re-added by the processing attempt). -/
theorem accounted_erase (st : SState) {u : WaitWorkUnit} (h : u ∈ st.side)
    (log : List (WaitWorkUnit × Nat)) :
    accounted st
      = accounted { st with side := st.side.erase u, procLog := log } + {u.work} := by
  simp only [accounted]
  rw [map_coe_erase_cons WaitWorkUnit.work h]
  rw [Multiset.add_cons, ← Multiset.singleton_add]
  rw [add_comm ({u.work} : Multiset _) _, add_assoc]

/-- The side-queue scan preserves the accounted multiset and the
attempts invariant, for every snapshot that is (as a multiset)
contained in the live queue. -/
theorem sweep_spec (env : Env) (ct : Nat) :
    ∀ (snap : List WaitWorkUnit) (st : SState),
      (↑snap : Multiset WaitWorkUnit) ≤ ↑st.side →
      goodSide st.side →
      accounted (sweep env ct snap st) = accounted st
      ∧ goodSide (sweep env ct snap st).side := by
  intro snap
  induction snap with
  | nil => intro st _ hg; exact ⟨rfl, hg⟩
  | cons u rest ih =>
    intro st hle hg
    have hle' : u ::ₘ (↑rest : Multiset WaitWorkUnit) ≤ ↑st.side := by
      rw [Multiset.cons_coe]; exact hle
    have hmem : u ∈ st.side :=
      Multiset.mem_coe.mp (Multiset.mem_of_le hle' (Multiset.mem_cons_self u _))
    by_cases hdue : u.timestamp ≤ ct
    · have hsweep : sweep env ct (u :: rest) st
          = sweep env ct rest
              (if u.proxy.isSome then
                (attemptWith env (.wait u)
                  { st with side := st.side.erase u,
                            procLog := st.procLog ++ [(u, st.now)] }).1
               else
                (attemptWithout env (.wait u)
                  { st with side := st.side.erase u,
                            procLog := st.procLog ++ [(u, st.now)] }).1) := by
        simp [sweep, hdue]
      have hrest_le : (↑rest : Multiset WaitWorkUnit) ≤ ↑(st.side.erase u) := by
        have h1 := Multiset.erase_le_erase u hle'
        rw [Multiset.erase_cons_head] at h1
        rw [Multiset.coe_erase] at h1
        exact h1
      have hgood1 : goodSide (st.side.erase u) := fun v hv =>
        hg v (List.mem_of_mem_erase hv)
      have hatt : 1 ≤ u.attempts := hg u hmem
      have hw : ∀ wu, BUnit.wait u = BUnit.wait wu → 1 ≤ wu.attempts := by
        intro wu hwu
        injection hwu with h'
        exact h' ▸ hatt
      set st1 : SState :=
        { st with side := st.side.erase u, procLog := st.procLog ++ [(u, st.now)] }
        with hst1
      have hacc1 : accounted st = accounted st1 + {u.work} :=
        accounted_erase st hmem _
      by_cases hps : u.proxy.isSome = true
      · have hspec := attemptWith_spec env (.wait u) st1 hw hps
        obtain ⟨se, de, hshape⟩ := attemptWith_shape env (.wait u) st1
        have hside_le : (↑rest : Multiset WaitWorkUnit)
            ≤ ↑(attemptWith env (.wait u) st1).1.side := by
          rw [hshape]
          show (↑rest : Multiset WaitWorkUnit) ≤ ↑(st1.side ++ se)
          rw [← Multiset.coe_add]
          exact le_trans hrest_le (Multiset.le_add_right _ _)
        have := ih (attemptWith env (.wait u) st1).1 hside_le (hspec.2 hgood1)
        rw [hsweep, if_pos hps]
        refine ⟨?_, this.2⟩
        rw [this.1, hspec.1]
        exact hacc1.symm
      · have hps' : u.proxy.isSome = false := by
          cases hval : u.proxy.isSome
          · rfl
          · exact absurd hval hps
        have hspec := attemptWithout_spec env (.wait u) st1 hw
        obtain ⟨se, de, hshape⟩ := attemptWithout_shape env (.wait u) st1
        have hside_le : (↑rest : Multiset WaitWorkUnit)
            ≤ ↑(attemptWithout env (.wait u) st1).1.side := by
          rw [hshape]
          show (↑rest : Multiset WaitWorkUnit) ≤ ↑(st1.side ++ se)
          rw [← Multiset.coe_add]
          exact le_trans hrest_le (Multiset.le_add_right _ _)
        have := ih (attemptWithout env (.wait u) st1).1 hside_le (hspec.2 hgood1)
        rw [hsweep, if_neg (by simp [hps'])]
        refine ⟨?_, this.2⟩
        rw [this.1, hspec.1]
        exact hacc1.symm
    · have hsweep : sweep env ct (u :: rest) st = sweep env ct rest st := by
        simp [sweep, hdue]
      rw [hsweep]
      exact ih st (le_trans (Multiset.le_cons_self _ _) hle') hg

/-- A region key listed in `regions` always resolves to a proxy
(`add_proxy` maintains `regions` and `proxies` in lockstep). -/
theorem lookup_isSome_of_contains (mgr : List (Str × ProxyUnit)) (k : Str)
    (h : (regionsOf mgr).contains k = true) : (mgr.lookup k).isSome = true := by
  induction mgr with
  | nil => exact Bool.noConfusion h
  | cons e t ih =>
    by_cases hk : k = e.1
    · have hbeq : (k == e.1) = true := beq_iff_eq.mpr hk
      have hlk : List.lookup k (e :: t) = some e.2 := by
        show (match (k == e.1) with
          | true => some e.2
          | false => List.lookup k t) = some e.2
        rw [hbeq]
      rw [hlk]
      rfl
    · have hk' : (k == e.1) = false := beq_eq_false_iff_ne.mpr hk
      have h' : (regionsOf t).contains k = true := by
        have hc : (regionsOf (e :: t)).contains k
            = ((k == e.1) || (regionsOf t).contains k) := rfl
        rw [hc, hk'] at h
        simpa using h
      have hlk : List.lookup k (e :: t) = List.lookup k t := by
        show (match (k == e.1) with
          | true => some e.2
          | false => List.lookup k t) = List.lookup k t
        rw [hk']
      rw [hlk]
      exact ih h'

/-- The primary-queue loop accounts every input item exactly once on
top of the incoming state and preserves the attempts invariant. -/
theorem mainLoop_spec (env : Env) (mgr : List (Str × ProxyUnit)) :
    ∀ (items : List WorkUnit) (st : SState), goodSide st.side →
      accounted (mainLoop env mgr items st) = accounted st + ↑items
      ∧ goodSide (mainLoop env mgr items st).side := by
  intro items
  induction items with
  | nil =>
    intro st hg
    constructor
    · show accounted st = accounted st + ↑([] : List WorkUnit)
      simp
    · exact hg
  | cons work queue ih =>
    intro st hg
    have hstep : accounted st + ↑(work :: queue)
        = (accounted st + {work}) + ↑queue := by
      rw [← Multiset.cons_coe, Multiset.add_cons, ← Multiset.singleton_add,
        ← add_assoc, add_comm ({work} : Multiset WorkUnit) (accounted st)]
    have hwFresh : ∀ (p : Option ProxyUnit) wu,
        BUnit.fresh work p = BUnit.wait wu → 1 ≤ wu.attempts := by
      intro p wu h
      exact BUnit.noConfusion h
    by_cases hlang : work.lang ≠ ruStr
    · by_cases hreg : ((regionsOf mgr).contains work.lang) = false
      · have hnotmem : ¬ work.lang ∈ regionsOf mgr := by simpa using hreg
        have hml : mainLoop env mgr (work :: queue) st
            = mainLoop env mgr queue
                { st with data := st.data ++ [noProxyResult work st.now] } := by
          simp [mainLoop, hlang, hnotmem]
        rw [hml]
        have hacc := accounted_data_append st (noProxyResult work st.now)
        have := ih { st with data := st.data ++ [noProxyResult work st.now] } hg
        refine ⟨?_, this.2⟩
        rw [this.1, hacc, hstep]
        rfl
      · have hreg' : ((regionsOf mgr).contains work.lang) = true := by
          cases hval : (regionsOf mgr).contains work.lang
          · exact absurd hval hreg
          · rfl
        have hp : (mgr.lookup work.lang).isSome = true :=
          lookup_isSome_of_contains mgr work.lang hreg'
        set u : BUnit := .fresh work (mgr.lookup work.lang) with hu
        have hmem : work.lang ∈ regionsOf mgr := by simpa using hreg'
        have hml : mainLoop env mgr (work :: queue) st
            = mainLoop env mgr queue
                (sweep env (attemptWith env u st).1.now
                  (attemptWith env u st).1.side (attemptWith env u st).1) := by
          simp [mainLoop, hlang, hmem]
        rw [hml]
        have hspec := attemptWith_spec env u st (hwFresh _) hp
        have hsw := sweep_spec env (attemptWith env u st).1.now
          (attemptWith env u st).1.side (attemptWith env u st).1
          (le_refl _) (hspec.2 hg)
        have := ih _ hsw.2
        refine ⟨?_, this.2⟩
        rw [this.1, hsw.1, hspec.1, hstep]
        rfl
    · have hlang' : work.lang = ruStr := not_not.mp hlang
      set u : BUnit := .fresh work none with hu
      have hml : mainLoop env mgr (work :: queue) st
          = mainLoop env mgr queue
              (sweep env (attemptWithout env u st).1.now
                (attemptWithout env u st).1.side (attemptWithout env u st).1) := by
        simp [mainLoop, hlang']
      rw [hml]
      have hspec := attemptWithout_spec env u st (hwFresh _)
      have hsw := sweep_spec env (attemptWithout env u st).1.now
        (attemptWithout env u st).1.side (attemptWithout env u st).1
        (le_refl _) (hspec.2 hg)
      have := ih _ hsw.2
      refine ⟨?_, this.2⟩
      rw [this.1, hsw.1, hspec.1, hstep]
      rfl

/-- The drain-only phase preserves the accounted multiset and
terminates (when it does) with an empty delayed queue. -/
theorem drain_spec (env : Env) :
    ∀ (fuel : Nat) (st : SState), goodSide st.side →
      ∀ final, drain env fuel st = some final →
        accounted final = accounted st ∧ final.side = [] := by
  intro fuel
  induction fuel with
  | zero =>
    intro st _ final h
    by_cases hside : st.side = []
    · simp only [drain, hside, if_pos] at h
      cases h
      exact ⟨rfl, hside⟩
    · simp [drain, hside] at h
  | succ fuel ih =>
    intro st hg final h
    by_cases hside : st.side = []
    · simp only [drain, hside, if_pos] at h
      cases h
      exact ⟨rfl, hside⟩
    · have hsw := sweep_spec env st.now st.side st (le_refl _) hg
      set st1 := sweep env st.now st.side st with hst1
      have hd : drain env (fuel + 1) st
          = drain env fuel
              (match st1.side with
               | [] => st1
               | u :: _ => { st1 with now := max st1.now u.timestamp }) := by
        simp [drain, hside]
      rw [hd] at h
      cases hs1 : st1.side with
      | nil =>
        rw [hs1] at h
        have := ih st1 hsw.2 final h
        exact ⟨by rw [this.1, hsw.1], this.2⟩
      | cons v t =>
        have hmatch : (match st1.side with
              | [] => st1
              | u :: _ => { st1 with now := max st1.now u.timestamp })
            = { st1 with now := max st1.now v.timestamp } := by
          rw [hs1]
        rw [hmatch] at h
        have hg2 : goodSide ({ st1 with now := max st1.now v.timestamp } : SState).side := by
          show goodSide st1.side
          exact hsw.2
        have := ih { st1 with now := max st1.now v.timestamp } hg2 final h
        refine ⟨?_, this.2⟩
        rw [this.1]
        show accounted st1 = accounted st
        exact hsw.1

end SchedInfra

section ClaimC1

open Models Sched

/-- C1: every completed run of the scheduler accounts exactly one
terminal result per input work item — the multiset of units of the
recorded results equals the multiset of inputs, no duplicates and no
omissions — and the delayed queue is empty at the end, so every
per-item error ended in either a requeue or a terminal result and no
item was silently dropped.  (Starting the proxy tunnel cannot raise:
`nekoray.Proxy.start` swallows startup errors, and a dead tunnel is
recorded as a terminal unavailable result through the availability
probe.) -/
theorem c1_one_result_per_item (env : Env) (mgr : List (Str × ProxyUnit))
    (fuel : Nat) (items : List WorkUnit) (now₀ : Nat) (final : SState)
    (hrun : process_all env mgr fuel items now₀ = some final) :
    (↑(final.data.map ResultWorkUnit.unit) : Multiset WorkUnit) = ↑items
    ∧ final.side = [] := by
  have hg0 : goodSide (initState now₀).side := by
    intro u hu
    cases hu
  have hmain := mainLoop_spec env mgr items (initState now₀) hg0
  have hdrain := drain_spec env fuel (mainLoop env mgr items (initState now₀))
    hmain.2 final hrun
  have hfin : accounted final = ↑items := by
    rw [hdrain.1, hmain.1]
    show accounted (initState now₀) + ↑items = ↑items
    simp [accounted, initState]
  refine ⟨?_, hdrain.2⟩
  rw [← hfin]
  simp [accounted, hdrain.2]

/-- C1 witness: the claim theorem on a concrete completed run — one
"ru" item, environment all-good — whose log holds exactly that item's
result. -/
theorem c1_witness :
    (↑((⟨[], [okResult ⟨"https://x.ru".data, "t".data, "ru".data, "i".data, none, false⟩ 0],
          1, 1, []⟩ : SState).data.map ResultWorkUnit.unit) : Multiset WorkUnit)
      = ↑[(⟨"https://x.ru".data, "t".data, "ru".data, "i".data, none, false⟩ : WorkUnit)]
    ∧ (⟨[], [okResult ⟨"https://x.ru".data, "t".data, "ru".data, "i".data, none, false⟩ 0],
          1, 1, []⟩ : SState).side = [] :=
  c1_one_result_per_item
    (fun _ => ⟨true, "A".data, "B".data, true, true, true, 1⟩) [] 1
    [⟨"https://x.ru".data, "t".data, "ru".data, "i".data, none, false⟩] 0
    ⟨[], [okResult ⟨"https://x.ru".data, "t".data, "ru".data, "i".data, none, false⟩ 0],
      1, 1, []⟩
    (by decide)

end ClaimC1

section TimesInfra

open Models Sched

/-- The side-queue scan honors `notBefore`: it only appends
processing-log entries whose recorded time dominates the unit's
timestamp, and never rewinds the clock. -/
theorem sweep_times (env : Env) (ct : Nat) :
    ∀ (snap : List WaitWorkUnit) (st : SState),
      timesOk st.procLog → ct ≤ st.now →
      timesOk (sweep env ct snap st).procLog
      ∧ ct ≤ (sweep env ct snap st).now := by
  intro snap
  induction snap with
  | nil => intro st h1 h2; exact ⟨h1, h2⟩
  | cons u rest ih =>
    intro st h1 h2
    by_cases hdue : u.timestamp ≤ ct
    · set st1 : SState :=
        { st with side := st.side.erase u, procLog := st.procLog ++ [(u, st.now)] }
        with hst1
      have h1' : timesOk st1.procLog := by
        intro pr hpr
        rcases List.mem_append.mp hpr with hpr | hpr
        · exact h1 pr hpr
        · rw [List.mem_singleton] at hpr
          subst hpr
          exact le_trans hdue h2
      by_cases hps : u.proxy.isSome = true
      · obtain ⟨se, de, hshape⟩ := attemptWith_shape env (.wait u) st1
        have hsweep : sweep env ct (u :: rest) st
            = sweep env ct rest (attemptWith env (.wait u) st1).1 := by
          simp [sweep, hdue, hps]
        rw [hsweep]
        apply ih
        · rw [hshape]
          exact h1'
        · rw [hshape]
          show ct ≤ st1.now + (env st1.step).duration
          exact le_trans h2 (Nat.le_add_right _ _)
      · obtain ⟨se, de, hshape⟩ := attemptWithout_shape env (.wait u) st1
        have hsweep : sweep env ct (u :: rest) st
            = sweep env ct rest (attemptWithout env (.wait u) st1).1 := by
          simp only [sweep, hdue, if_pos]
          rw [if_neg (by simp [hps])]
        rw [hsweep]
        apply ih
        · rw [hshape]
          exact h1'
        · rw [hshape]
          show ct ≤ st1.now + (env st1.step).duration
          exact le_trans h2 (Nat.le_add_right _ _)
    · rw [show sweep env ct (u :: rest) st = sweep env ct rest st from by
        simp [sweep, hdue]]
      exact ih st h1 h2

/-- The primary-queue loop preserves the honored-timestamps invariant of
the processing log. -/
theorem mainLoop_times (env : Env) (mgr : List (Str × ProxyUnit)) :
    ∀ (items : List WorkUnit) (st : SState),
      timesOk st.procLog → timesOk (mainLoop env mgr items st).procLog := by
  intro items
  induction items with
  | nil => intro st h; exact h
  | cons work queue ih =>
    intro st h
    by_cases hlang : work.lang ≠ ruStr
    · by_cases hmem : work.lang ∈ regionsOf mgr
      · set u : BUnit := .fresh work (mgr.lookup work.lang) with hu
        have hml : mainLoop env mgr (work :: queue) st
            = mainLoop env mgr queue
                (sweep env (attemptWith env u st).1.now
                  (attemptWith env u st).1.side (attemptWith env u st).1) := by
          simp [mainLoop, hlang, hmem]
        rw [hml]
        obtain ⟨se, de, hshape⟩ := attemptWith_shape env u st
        have h1 : timesOk (attemptWith env u st).1.procLog := by
          rw [hshape]
          exact h
        exact ih _ (sweep_times env _ _ _ h1 (le_refl _)).1
      · have hml : mainLoop env mgr (work :: queue) st
            = mainLoop env mgr queue
                { st with data := st.data ++ [noProxyResult work st.now] } := by
          simp [mainLoop, hlang, hmem]
        rw [hml]
        exact ih _ h
    · have hlang' : work.lang = ruStr := not_not.mp hlang
      set u : BUnit := .fresh work none with hu
      have hml : mainLoop env mgr (work :: queue) st
          = mainLoop env mgr queue
              (sweep env (attemptWithout env u st).1.now
                (attemptWithout env u st).1.side (attemptWithout env u st).1) := by
        simp [mainLoop, hlang']
      rw [hml]
      obtain ⟨se, de, hshape⟩ := attemptWithout_shape env u st
      have h1 : timesOk (attemptWithout env u st).1.procLog := by
        rw [hshape]
        exact h
      exact ih _ (sweep_times env _ _ _ h1 (le_refl _)).1

/-- The drain-only phase preserves the honored-timestamps invariant of
the processing log. -/
theorem drain_times (env : Env) :
    ∀ (fuel : Nat) (st : SState), timesOk st.procLog →
      ∀ final, drain env fuel st = some final → timesOk final.procLog := by
  intro fuel
  induction fuel with
  | zero =>
    intro st h final hrun
    by_cases hside : st.side = []
    · simp only [drain, hside, if_pos] at hrun
      cases hrun
      exact h
    · simp [drain, hside] at hrun
  | succ fuel ih =>
    intro st h final hrun
    by_cases hside : st.side = []
    · simp only [drain, hside, if_pos] at hrun
      cases hrun
      exact h
    · have hsw := sweep_times env st.now st.side st h (le_refl _)
      set st1 := sweep env st.now st.side st with hst1
      have hd : drain env (fuel + 1) st
          = drain env fuel
              (match st1.side with
               | [] => st1
               | u :: _ => { st1 with now := max st1.now u.timestamp }) := by
        simp [drain, hside]
      rw [hd] at hrun
      cases hs1 : st1.side with
      | nil =>
        rw [hs1] at hrun
        exact ih st1 hsw.1 final hrun
      | cons v t =>
        have hmatch : (match st1.side with
              | [] => st1
              | u :: _ => { st1 with now := max st1.now u.timestamp })
            = { st1 with now := max st1.now v.timestamp } := by
          rw [hs1]
        rw [hmatch] at hrun
        have h2 : timesOk ({ st1 with now := max st1.now v.timestamp } : SState).procLog := by
          show timesOk st1.procLog
          exact hsw.1
        exact ih _ h2 final hrun

end TimesInfra

section ClaimC3

open Models Sched

/-- C3: in every completed run, every delayed-queue item the scheduler
processed — whether in the scan after a primary-queue item or in the
final drain-only phase, both recorded in `procLog` — was processed at or
after its `notBefore` timestamp. -/
theorem c3_notBefore_honored (env : Env) (mgr : List (Str × ProxyUnit))
    (fuel : Nat) (items : List WorkUnit) (now₀ : Nat) (final : SState)
    (hrun : process_all env mgr fuel items now₀ = some final) :
    ∀ pr ∈ final.procLog, pr.1.timestamp ≤ pr.2 := by
  have h0 : timesOk (initState now₀).procLog := by
    intro pr hpr
    cases hpr
  have hmain := mainLoop_times env mgr items (initState now₀) h0
  exact drain_times env fuel _ hmain final hrun

/-- C3 witness: a concrete run — one "ru" item whose first attempt fails
and is requeued with `notBefore = 7`, then succeeds — completes with a
processing log showing the retry handled at time 7, and the claim
theorem applied to that log entry yields `7 ≤ 7`. -/
theorem c3_witness :
    process_all
        (fun n => if n = 0
          then ⟨true, "A".data, "B".data, false, true, true, 0⟩
          else ⟨true, "A".data, "B".data, true, true, true, 0⟩) [] 2
        [⟨"https://x.ru".data, "t".data, "ru".data, "i".data, none, false⟩] 0
      = some ⟨[],
          [okResult ⟨"https://x.ru".data, "t".data, "ru".data, "i".data, none, false⟩ 7],
          7, 2,
          [(⟨⟨"https://x.ru".data, "t".data, "ru".data, "i".data, none, false⟩,
              none, 7, 3⟩, 7)]⟩
    ∧ (⟨⟨"https://x.ru".data, "t".data, "ru".data, "i".data, none, false⟩,
          none, 7, 3⟩ : WaitWorkUnit).timestamp ≤ 7 :=
  ⟨by decide,
    c3_notBefore_honored
      (fun n => if n = 0
        then ⟨true, "A".data, "B".data, false, true, true, 0⟩
        else ⟨true, "A".data, "B".data, true, true, true, 0⟩) [] 2
      [⟨"https://x.ru".data, "t".data, "ru".data, "i".data, none, false⟩] 0
      ⟨[], [okResult ⟨"https://x.ru".data, "t".data, "ru".data, "i".data, none, false⟩ 7],
        7, 2,
        [(⟨⟨"https://x.ru".data, "t".data, "ru".data, "i".data, none, false⟩,
            none, 7, 3⟩, 7)]⟩
      (by decide)
      (⟨⟨⟨"https://x.ru".data, "t".data, "ru".data, "i".data, none, false⟩,
          none, 7, 3⟩, 7⟩ : WaitWorkUnit × Nat)
      (by decide)⟩

end ClaimC3
